import Mathlib

/-!
Shallow embedding of the text-to-bitmap pipeline of `src/src/lib.rs`
(bevy_swash).

Modelling conventions:
* `f32` values are modelled as exact rationals (`ℚ`).  All float
  computations appearing in the embedded code paths stay on integers below
  2^24 (where `f32` arithmetic is exact) until a final division by `255.0`
  or a rounding step, so the rational model agrees with the `f32`
  computation; the final `as u8` / `as u32` casts of Rust (which saturate
  and truncate toward zero) are modelled explicitly.
* The external swash shaper and rasterizer are oracles: a shaped cluster
  stream is an input (`ClusterInput`), and each glyph input carries the
  coverage bitmaps the rasterizer would return for its fill variant and for
  its outline variant at the section's stroke width.
* `u32`/`usize` subtractions are modelled by truncated `Nat` subtraction;
  the places where this is used are proved not to underflow (claim C10), so
  the truncation never takes effect on reachable inputs.
-/

namespace BevySwash

/-- A swash coverage bitmap (`swash::scale::image::Image`, `Format::Alpha`):
placement offsets `left`/`top`, pixel dimensions, and one alpha byte per
pixel in `data`. -/
structure SwashImage where
  left : Int
  top : Int
  width : Nat
  height : Nat
  data : List Nat
deriving Repr, DecidableEq, Inhabited

/-- A bevy RGBA image: dimensions plus flat `rgba8` byte data. -/
structure Image where
  width : Nat
  height : Nat
  data : List Nat
deriving Repr, DecidableEq, Inhabited

/-- An sRGBA color with channels in `[0,1]` (the `Srgba` value obtained from
`color.into()` in `bitmap_to_image`). -/
structure Srgba where
  red : ℚ
  green : ℚ
  blue : ℚ
  alpha : ℚ
deriving Repr, DecidableEq, Inhabited

/-- Rust `as u8` on a nonnegative-range float: truncation toward zero with
saturation at the bounds (`0` and `255`). -/
def u8cast (q : ℚ) : Nat := (min 255 ⌊q⌋).toNat

/-- `bitmap_to_image` (src/src/lib.rs:166): colorize a coverage bitmap with a
flat color; the color's alpha channel is never read, per-pixel alpha is the
coverage byte. -/
def bitmap_to_image (bitmap : SwashImage) (color : Srgba) : Image :=
  let red := u8cast (color.red * 255)
  let green := u8cast (color.green * 255)
  let blue := u8cast (color.blue * 255)
  { width := bitmap.width
    height := bitmap.height
    data := bitmap.data.flatMap (fun alpha => [red, green, blue, alpha]) }

/-- `OutlineStyle` (src/src/lib.rs:112). -/
inductive OutlineStyle where
  | none
  | outline (width : ℚ) (color : Srgba)
deriving Repr, DecidableEq, Inhabited

/-- `OutlinedTextSection` (src/src/lib.rs:100).  The `value` string itself is
consumed by the shaper oracle, so only the style fields appear here. -/
structure OutlinedTextSection where
  color : Srgba
  outline : OutlineStyle
deriving Repr, DecidableEq, Inhabited

/-- `JustifyOutlinedText` (src/src/lib.rs:122). -/
inductive JustifyOutlinedText where
  | left
  | center
  | right
deriving Repr, DecidableEq, Inhabited

/-- One shaped glyph as delivered to the `shape_with` closure: its advance
and, as rasterizer oracles, the coverage bitmap of its fill variant
(`glyph_to_bitmap`) and of its outline variant at the owning section's
stroke width (`glyph_outline_to_bitmap`). -/
structure GlyphInput where
  advance : ℚ
  fillRaster : SwashImage
  outlineRaster : SwashImage
deriving Repr, DecidableEq, Inhabited

/-- One shaped glyph cluster: whether
`glyph_cluster.info.whitespace() == Whitespace::Newline`, the section index
carried in `glyph_cluster.data`, and its glyphs. -/
structure ClusterInput where
  newline : Bool
  data : Nat
  glyphs : List GlyphInput
deriving Repr, DecidableEq, Inhabited

/-- Shaper line metrics (`shaper.metrics()`). -/
structure FontMetrics where
  ascent : ℚ
  descent : ℚ
  leading : ℚ
deriving Repr, DecidableEq, Inhabited

/-- `line_height = descent + ascent + leading` (src/src/lib.rs:306). -/
def lineHeight (m : FontMetrics) : ℚ := m.descent + m.ascent + m.leading

/-- `GlyphImage` (src/src/lib.rs:194). -/
structure GlyphImage where
  offset_x : ℚ
  offset_y : ℚ
  offset_z : ℚ
  image : Image
deriving Repr, DecidableEq, Inhabited

/-- `OutlinedGlyphLine` (src/src/lib.rs:201). -/
structure OutlinedGlyphLine where
  glyphs : List GlyphImage
  width : ℚ
deriving Repr, DecidableEq, Inhabited

instance : EmptyCollection OutlinedGlyphLine := ⟨⟨[], 0⟩⟩

@[simp] theorem emptyLine_def : (∅ : OutlinedGlyphLine) = ⟨[], 0⟩ := rfl

/-- The mutable state of the `shape_with` closure: finished `lines`, the
`current_line` accumulator and the running cursor `x`. -/
structure LayoutState where
  lines : List OutlinedGlyphLine
  current : OutlinedGlyphLine
  x : ℚ
deriving Repr, DecidableEq, Inhabited

/-- Body of the `for glyph in glyph_cluster.glyphs` loop
(src/src/lib.rs:336-372): optionally emit the outline glyph image, then the
fill glyph image (each only when its colorized image has nonzero width and
height), then advance the cursor. -/
def processGlyph (descent : ℚ) (sec : OutlinedTextSection)
    (st : LayoutState) (g : GlyphInput) : LayoutState :=
  let st1 :=
    match sec.outline with
    | .outline _w outlineColor =>
        let outlineImage := bitmap_to_image g.outlineRaster outlineColor
        if outlineImage.width ≠ 0 ∧ outlineImage.height ≠ 0 then
          { st with current := { st.current with glyphs := st.current.glyphs ++
              [({ offset_x := st.x + (g.outlineRaster.left : ℚ)
                  offset_y := descent - (g.outlineRaster.height : ℚ) +
                    (g.outlineRaster.top : ℚ)
                  offset_z := -1/1000
                  image := outlineImage } : GlyphImage)] } }
        else st
    | .none => st
  let fillImage := bitmap_to_image g.fillRaster sec.color
  let st2 :=
    if fillImage.width ≠ 0 ∧ fillImage.height ≠ 0 then
      { st1 with current := { st1.current with glyphs := st1.current.glyphs ++
          [({ offset_x := st1.x + (g.fillRaster.left : ℚ)
              offset_y := descent - (g.fillRaster.height : ℚ) +
                (g.fillRaster.top : ℚ)
              offset_z := 0
              image := fillImage } : GlyphImage)] } }
    else st1
  { st2 with x := st2.x + g.advance }

/-- Body of the `shape_with` closure for one cluster (src/src/lib.rs:325-373):
on a newline cluster, record the current line width, reset `x` and push the
finished line; then process every glyph of the cluster. -/
def processCluster (descent : ℚ) (sections : List OutlinedTextSection)
    (st : LayoutState) (c : ClusterInput) : LayoutState :=
  let sec := sections.getD c.data default
  let st1 :=
    if c.newline then
      { lines := st.lines ++ [{ glyphs := st.current.glyphs, width := st.x }]
        current := {}
        x := 0 }
    else st
  c.glyphs.foldl (processGlyph descent sec) st1

/-- The line accumulation phase of `create_glyph_images`
(src/src/lib.rs:308-375): run the closure over all clusters, then close the
final line (`current_line.width = x; lines.push(current_line)`). -/
def layoutLines (descent : ℚ) (sections : List OutlinedTextSection)
    (clusters : List ClusterInput) : List OutlinedGlyphLine :=
  let st := clusters.foldl (processCluster descent sections) ⟨[], {}, 0⟩
  st.lines ++ [{ glyphs := st.current.glyphs, width := st.x }]

/-- `text_width = lines.iter().map(width).fold(0.0, f32::max)`
(src/src/lib.rs:378). -/
def textWidth (lines : List OutlinedGlyphLine) : ℚ :=
  (lines.map (·.width)).foldl max 0

/-- `text_height = descent + ascent + (lines.len() - 1) * line_height`
(src/src/lib.rs:379).  `lines.len()` is at least 1 on every reachable call,
so the truncated `Nat` subtraction matches the `usize` one. -/
def textHeight (m : FontMetrics) (lines : List OutlinedGlyphLine) : ℚ :=
  m.descent + m.ascent + ((lines.length - 1 : ℕ) : ℚ) * lineHeight m

/-- Horizontal justification padding (src/src/lib.rs:386-390). -/
def justifyPadding (justify : JustifyOutlinedText)
    (text_width line_width : ℚ) : ℚ :=
  match justify with
  | .left => 0
  | .center => (text_width - line_width) / 2
  | .right => text_width - line_width

/-- `create_glyph_images` (src/src/lib.rs:277): early-return on an empty
section list, accumulate lines, compute text extents and anchor offsets,
apply justification padding and final per-line offsets, and flatten.  The
shaping and rasterization oracles are the `clusters` input; `anchor` is the
`anchor.as_vec()` pair. -/
def create_glyph_images (m : FontMetrics) (justify : JustifyOutlinedText)
    (anchor : ℚ × ℚ) (sections : List OutlinedTextSection)
    (clusters : List ClusterInput) : List GlyphImage :=
  if sections = [] then []
  else
    let lines := layoutLines m.descent sections clusters
    let line_count := lines.length
    let text_width := textWidth lines
    let text_height := textHeight m lines
    let anchor_offset_x := -anchor.1 * text_width - text_width / 2
    let anchor_offset_y := -anchor.2 * text_height - text_height / 2
    let shifted := lines.enum.map (fun p =>
      let padding := justifyPadding justify text_width p.2.width
      p.2.glyphs.map (fun g =>
        { g with
          offset_x := g.offset_x + (anchor_offset_x + padding)
          offset_y := g.offset_y + (anchor_offset_y +
            ((line_count - p.1 - 1 : ℕ) : ℚ) * lineHeight m) }))
    shifted.flatten

/-- `OutlinedTextImage` (src/src/lib.rs:207).  The image asset store is
abstracted away: the composed image itself stands for its handle. -/
structure OutlinedTextImage where
  x : ℚ
  y : ℚ
  z : ℚ
  image : Image
deriving Repr, DecidableEq, Inhabited

/-- Rust `f32::round` (round half away from zero) on a nonnegative input.
Every argument it receives in `compose_glyph_images` is a coordinate minus
the minimum over a set containing it, hence nonnegative, where
`⌊q + 1/2⌋` agrees with round-half-away-from-zero. -/
def roundQ (q : ℚ) : ℤ := ⌊q + 1/2⌋

/-- The bounding-box loop of `compose_glyph_images` (src/src/lib.rs:435-450):
`(x_min, x_max, y_min, y_max)`.  The source initializes the accumulators to
`±∞` and folds over all glyphs; the function is only applied to nonempty
lists (the empty case returns earlier), where starting from the first
glyph's own extents is the same fold. -/
def boundsStep (b : ℚ × ℚ × ℚ × ℚ) (g : GlyphImage) : ℚ × ℚ × ℚ × ℚ :=
  (min b.1 g.offset_x,
   max b.2.1 (g.offset_x + (g.image.width : ℚ)),
   min b.2.2.1 g.offset_y,
   max b.2.2.2 (g.offset_y + (g.image.height : ℚ)))

def glyphBounds : List GlyphImage → ℚ × ℚ × ℚ × ℚ
  | [] => (0, 0, 0, 0)
  | g :: gs =>
      gs.foldl boundsStep
        (g.offset_x, g.offset_x + (g.image.width : ℚ),
         g.offset_y, g.offset_y + (g.image.height : ℚ))

/-- The per-pixel alpha-over blend of `compose_glyph_images`
(src/src/lib.rs:473-483), computed in `f32` and cast back to `u8`.  The
products and sums involved are integers below `2^24`, hence exact in `f32`;
only the final division by `255.0` rounds, and its rounding error (under
`2^-15`) is too small to move the value across an integer, so the rational
model with the explicit truncating-saturating cast is exact.  Returns
`(red, green, blue, alpha)`. -/
def composePixelCode (sr sg sb sa dr dg db da : Nat) :
    Nat × Nat × Nat × Nat :=
  let alpha := u8cast (255 - ((255 - (sa : ℚ)) * (255 - (da : ℚ))) / 255)
  let red := u8cast (((sr : ℚ) * (255 - (da : ℚ)) +
    (dr : ℚ) * (255 - (sa : ℚ))) / 255)
  let green := u8cast (((sg : ℚ) * (255 - (da : ℚ)) +
    (dg : ℚ) * (255 - (sa : ℚ))) / 255)
  let blue := u8cast (((sb : ℚ) * (255 - (da : ℚ)) +
    (db : ℚ) * (255 - (sa : ℚ))) / 255)
  (red, green, blue, alpha)

/-- Write one RGBA pixel (4 bytes starting at `i`) into a flat byte buffer.
`List.set` out of range is a no-op; the indices used are proved in bounds
(claim C10). -/
def set4 (data : List Nat) (i r g b a : Nat) : List Nat :=
  (((data.set i r).set (i + 1) g).set (i + 2) b).set (i + 3) a

/-- The destination origin of one glyph inside the atlas
(src/src/lib.rs:461-462).  `as u32` on the rounded nonnegative offset is
`Int.toNat`; the two `u32` subtractions are truncated `Nat` subtraction,
proved not to underflow (claim C10). -/
def destX (xmin : ℚ) (g : GlyphImage) : Nat :=
  (roundQ (g.offset_x - xmin)).toNat

def destY (totalHeight : Nat) (ymin : ℚ) (g : GlyphImage) : Nat :=
  totalHeight - g.image.height - (roundQ (g.offset_y - ymin)).toNat

/-- The inner double loop of `compose_glyph_images` (src/src/lib.rs:457-491)
for one glyph: blend every source pixel over the destination buffer. -/
def compositeGlyph (totalWidth totalHeight : Nat) (xmin ymin : ℚ)
    (data : List Nat) (glyph : GlyphImage) : List Nat :=
  let w := glyph.image.width
  let dx := destX xmin glyph
  let dy := destY totalHeight ymin glyph
  (List.range glyph.image.height).foldl (fun data source_y =>
    (List.range w).foldl (fun data source_x =>
      let src_index := (source_y * w + source_x) * 4
      let dest_index := ((dy + source_y) * totalWidth + dx + source_x) * 4
      let s := fun k => glyph.image.data.getD (src_index + k) 0
      let d := fun k => data.getD (dest_index + k) 0
      let px := composePixelCode (s 0) (s 1) (s 2) (s 3) (d 0) (d 1) (d 2) (d 3)
      set4 data dest_index px.1 px.2.1 px.2.2.1 px.2.2.2) data) data

/-- The outer glyph loop of `compose_glyph_images`: glyphs are composited in
list order, each over the buffer produced by the previous ones. -/
def compositeAll (totalWidth totalHeight : Nat) (xmin ymin : ℚ)
    (glyph_images : List GlyphImage) (data : List Nat) : List Nat :=
  glyph_images.foldl (compositeGlyph totalWidth totalHeight xmin ymin) data

/-- `total_width = (x_max - x_min).ceil() as u32` (src/src/lib.rs:452); the
`as u32` cast of the nonnegative ceiling is `Int.toNat`. -/
def totalWidth (glyph_images : List GlyphImage) : Nat :=
  ⌈(glyphBounds glyph_images).2.1 - (glyphBounds glyph_images).1⌉.toNat

/-- `total_height = (y_max - y_min).ceil() as u32` (src/src/lib.rs:453). -/
def totalHeight (glyph_images : List GlyphImage) : Nat :=
  ⌈(glyphBounds glyph_images).2.2.2 - (glyphBounds glyph_images).2.2.1⌉.toNat

/-- `compose_glyph_images` (src/src/lib.rs:425): `None` on an empty input;
otherwise compute the bounding box, ceil its extents to the atlas size,
blend every glyph into a zero-initialized buffer, and return the composed
image anchored at `(x_min, y_min)` with the first glyph's `offset_z`. -/
def compose_glyph_images (glyph_images : List GlyphImage) :
    Option OutlinedTextImage :=
  match glyph_images with
  | [] => none
  | g0 :: _ =>
    let z_index := g0.offset_z
    let total_width := totalWidth glyph_images
    let total_height := totalHeight glyph_images
    let data := List.replicate (total_width * total_height * 4) 0
    let data := compositeAll total_width total_height
      (glyphBounds glyph_images).1 (glyphBounds glyph_images).2.2.1
      glyph_images data
    some { x := (glyphBounds glyph_images).1
           y := (glyphBounds glyph_images).2.2.1
           z := z_index
           image := { width := total_width, height := total_height,
                      data := data } }

/-- The partition-and-compose part of the `create_missing_text` loop body
(src/src/lib.rs:258-270): split the flat glyph-image list by
`offset_z == 0.0` (fills first, the rest second), compose each group, and
keep the nonempty results in that order. -/
def composeLayers (glyph_images : List GlyphImage) : List OutlinedTextImage :=
  let part := glyph_images.partition (fun g => decide (g.offset_z = 0))
  (compose_glyph_images part.1).toList ++ (compose_glyph_images part.2).toList

/-- The per-entity inputs of `create_missing_text`: the text component's
style data plus the shaping oracle for its sections' strings.  Sections
whose strings are all empty yield an empty cluster stream. -/
structure TextInput where
  sections : List OutlinedTextSection
  justify : JustifyOutlinedText
  anchor : ℚ × ℚ
  metrics : FontMetrics
  clusters : List ClusterInput
deriving Repr, DecidableEq, Inhabited

/-- The body of the `create_missing_text` query loop for one entity
(src/src/lib.rs:237-273): skip when nothing changed and a cache entry
exists; otherwise, if the font resolves, recompute and insert the (possibly
empty) composed-image list; if the font does not resolve, leave the cache
untouched.  `cache` is this entity's current cache slot
(`None` = no entry). -/
def create_missing_text_entity (factor_changed text_changed anchor_changed : Bool)
    (font : Option Unit) (input : TextInput)
    (cache : Option (List OutlinedTextImage)) :
    Option (List OutlinedTextImage) :=
  if !factor_changed && !text_changed && !anchor_changed && cache.isSome then
    cache
  else
    match font with
    | none => cache
    | some _ =>
        some (composeLayers (create_glyph_images input.metrics input.justify
          input.anchor input.sections input.clusters))

/-- Modelled from the spec (claims C3): the compositing formula exactly as
the specification words it, with every division by 255 performed as
truncating integer division on natural numbers:
`out_a = 255 - (255-src_a)*(255-dst_a)/255`,
`out_c = (src_c*(255-dst_a) + dst_c*(255-src_a))/255`.
Returns `(red, green, blue, alpha)`; to be compared against
`composePixelCode`, which embeds the source. -/
def specComposePixel (sr sg sb sa dr dg db da : Nat) :
    Nat × Nat × Nat × Nat :=
  (  (sr * (255 - da) + dr * (255 - sa)) / 255,
     (sg * (255 - da) + dg * (255 - sa)) / 255,
     (sb * (255 - da) + db * (255 - sa)) / 255,
     255 - (255 - sa) * (255 - da) / 255)

/-- The number of newline-break clusters in a shaped input. -/
def countNewlines (clusters : List ClusterInput) : Nat :=
  (clusters.filter (·.newline)).length

theorem processGlyph_lines (d : ℚ) (sec : OutlinedTextSection)
    (st : LayoutState) (g : GlyphInput) :
    (processGlyph d sec st g).lines = st.lines := by
  unfold processGlyph
  cases sec.outline <;> dsimp only <;> split <;> try split
  all_goals rfl

theorem foldl_processGlyph_lines (d : ℚ) (sec : OutlinedTextSection)
    (gs : List GlyphInput) (st : LayoutState) :
    (gs.foldl (processGlyph d sec) st).lines = st.lines := by
  induction gs generalizing st with
  | nil => rfl
  | cons g gs ih => rw [List.foldl_cons, ih, processGlyph_lines]

theorem processCluster_lines_length (d : ℚ)
    (sections : List OutlinedTextSection) (st : LayoutState)
    (c : ClusterInput) :
    (processCluster d sections st c).lines.length =
      st.lines.length + (if c.newline then 1 else 0) := by
  unfold processCluster
  rw [foldl_processGlyph_lines]
  by_cases h : c.newline = true
  · simp [h]
  · simp [h]

theorem foldl_processCluster_lines_length (d : ℚ)
    (sections : List OutlinedTextSection) (clusters : List ClusterInput)
    (st : LayoutState) :
    ((clusters.foldl (processCluster d sections) st).lines.length =
      st.lines.length + countNewlines clusters) := by
  induction clusters generalizing st with
  | nil => simp [countNewlines]
  | cons c cs ih =>
      rw [List.foldl_cons, ih, processCluster_lines_length]
      unfold countNewlines
      by_cases h : c.newline = true
      · simp [h, List.filter_cons]
        omega
      · simp [h, List.filter_cons]

theorem layoutLines_length (d : ℚ) (sections : List OutlinedTextSection)
    (clusters : List ClusterInput) :
    (layoutLines d sections clusters).length = countNewlines clusters + 1 := by
  unfold layoutLines
  rw [List.length_append, foldl_processCluster_lines_length]
  simp

/-- C1: for every shaped input with exactly `k` newline-break clusters, the
line layout produces exactly `k + 1` lines, and the computed total text
height is `ascent + descent + k * line_height` with
`line_height = ascent + descent + leading`. -/
theorem c1_line_break_count (m : FontMetrics)
    (sections : List OutlinedTextSection) (clusters : List ClusterInput)
    (k : ℕ) (hk : countNewlines clusters = k) :
    (layoutLines m.descent sections clusters).length = k + 1 ∧
    textHeight m (layoutLines m.descent sections clusters) =
      m.ascent + m.descent + (k : ℚ) * lineHeight m := by
  have hlen := layoutLines_length m.descent sections clusters
  rw [hk] at hlen
  refine ⟨hlen, ?_⟩
  unfold textHeight
  rw [hlen]
  simp only [Nat.add_sub_cancel]
  ring

/-- C1 witness: a concrete input with two newline clusters yields three lines
and the spelled-out text height. -/
theorem c1_line_break_count_witness :
    (layoutLines (2 : ℚ) [] [⟨true, 0, []⟩, ⟨false, 0, []⟩, ⟨true, 0, []⟩]).length
        = 2 + 1 ∧
    textHeight ⟨8, 2, 1⟩
        (layoutLines (2 : ℚ) [] [⟨true, 0, []⟩, ⟨false, 0, []⟩, ⟨true, 0, []⟩]) =
      8 + 2 + (2 : ℚ) * lineHeight ⟨8, 2, 1⟩ :=
  c1_line_break_count ⟨8, 2, 1⟩ [] [⟨true, 0, []⟩, ⟨false, 0, []⟩, ⟨true, 0, []⟩]
    2 (by decide)

/-- C8: when the font handle does not resolve, the pass leaves the entity's
cache slot exactly as it was (no removal, no insertion, no error value
anywhere in the model), whatever the change flags say; and on a later pass
with the font available and still no cache entry, the recomputation runs
and inserts its result. -/
theorem c8_unresolved_font_skips (f t a f' t' a' : Bool) (input : TextInput)
    (cache : Option (List OutlinedTextImage)) :
    create_missing_text_entity f t a none input cache = cache ∧
    create_missing_text_entity f' t' a' (some ()) input none =
      some (composeLayers (create_glyph_images input.metrics input.justify
        input.anchor input.sections input.clusters)) := by
  constructor
  · unfold create_missing_text_entity
    split <;> rfl
  · unfold create_missing_text_entity
    simp

/-- With no clusters to shape (every section string empty), the glyph-image
list is empty: the single accumulated line carries no glyphs. -/
theorem create_glyph_images_nil_clusters (m : FontMetrics)
    (justify : JustifyOutlinedText) (anchor : ℚ × ℚ)
    (sections : List OutlinedTextSection) :
    create_glyph_images m justify anchor sections [] = [] := by
  unfold create_glyph_images
  split
  · rfl
  · rfl

/-- C4 (amended): a recompute pass over an object with zero sections, or
with nothing to shape (all section strings empty), produces no composed
images, but it does insert a cache entry: the entity is mapped to the empty
image list. -/
theorem c4_empty_text_inserts_empty_entry (f t a : Bool) (input : TextInput)
    (cache : Option (List OutlinedTextImage))
    (htrigger : cache = none ∨ f = true ∨ t = true ∨ a = true)
    (hempty : input.sections = [] ∨ input.clusters = []) :
    create_missing_text_entity f t a (some ()) input cache = some [] := by
  have himages : create_glyph_images input.metrics input.justify input.anchor
      input.sections input.clusters = [] := by
    rcases hempty with h | h
    · unfold create_glyph_images
      rw [if_pos h]
    · rw [h]
      exact create_glyph_images_nil_clusters _ _ _ _
  unfold create_missing_text_entity
  rw [himages]
  have hguard : (!f && !t && !a && cache.isSome) = false := by
    rcases htrigger with h | h | h | h <;> simp [h]
  rw [hguard]
  rfl

/-- C4 counterexample to the claim as stated: with the font resolved and no
prior entry, an object with zero sections ends the pass with a cache entry
present (mapped to the empty list), not with no entry. -/
theorem c4_counterexample :
    create_missing_text_entity false false false (some ())
        ⟨[], .left, (0, 0), ⟨8, 2, 1⟩, []⟩ none = some [] ∧
    (some ([] : List OutlinedTextImage)) ≠ none := by
  constructor
  · rfl
  · simp

/-- C4 witness: the amended statement applied to a one-section object whose
string shapes to no clusters. -/
theorem c4_empty_text_witness :
    create_missing_text_entity true false false (some ())
        ⟨[⟨⟨1, 0, 0, 1⟩, .none⟩], .center, (0, 0), ⟨8, 2, 1⟩, []⟩
        (some [⟨0, 0, 0, ⟨0, 0, []⟩⟩]) = some [] :=
  c4_empty_text_inserts_empty_entry true false false _ _
    (Or.inr (Or.inl rfl)) (Or.inr rfl)

theorem flatMap4_length (l : List Nat) (r g b : Nat) :
    (l.flatMap fun a => [r, g, b, a]).length = 4 * l.length := by
  induction l with
  | nil => rfl
  | cons a l ih =>
      rw [List.flatMap_cons, List.length_append, ih]
      simp
      omega

theorem flatMap4_getElem (l : List Nat) (r g b : Nat) :
    ∀ i, i < l.length →
      (l.flatMap fun a => [r, g, b, a])[4 * i]? = some r ∧
      (l.flatMap fun a => [r, g, b, a])[4 * i + 1]? = some g ∧
      (l.flatMap fun a => [r, g, b, a])[4 * i + 2]? = some b ∧
      (l.flatMap fun a => [r, g, b, a])[4 * i + 3]? = l[i]? := by
  induction l with
  | nil => intro i hi; simp at hi
  | cons a l ih =>
      intro i hi
      cases i with
      | zero => simp
      | succ j =>
          have hj : j < l.length := by
            simpa using Nat.lt_of_succ_lt_succ hi
          obtain ⟨h0, h1, h2, h3⟩ := ih j hj
          rw [List.flatMap_cons]
          have hlen : ([r, g, b, a]).length = 4 := rfl
          refine ⟨?_, ?_, ?_, ?_⟩
          · rw [List.getElem?_append_right (by omega)]
            rw [show 4 * (j + 1) - ([r, g, b, a]).length = 4 * j by simp; omega]
            exact h0
          · rw [List.getElem?_append_right (by omega)]
            rw [show 4 * (j + 1) + 1 - ([r, g, b, a]).length = 4 * j + 1 by
              simp; omega]
            exact h1
          · rw [List.getElem?_append_right (by omega)]
            rw [show 4 * (j + 1) + 2 - ([r, g, b, a]).length = 4 * j + 2 by
              simp; omega]
            exact h2
          · rw [List.getElem?_append_right (by omega)]
            rw [show 4 * (j + 1) + 3 - ([r, g, b, a]).length = 4 * j + 3 by
              simp; omega]
            rw [h3]
            simp

/-- C7: the colorizer keeps the bitmap's dimensions (so a zero-size input
yields a zero-size output), each output pixel's red, green and blue bytes
are the fill color's converted channel bytes, the alpha byte is that
pixel's coverage value, and the color's alpha channel has no effect on the
output. -/
theorem c7_bitmap_colorizer (bitmap : SwashImage) (color : Srgba) (a' : ℚ)
    (i : ℕ) (hi : i < bitmap.data.length) :
    (bitmap_to_image bitmap color).width = bitmap.width ∧
    (bitmap_to_image bitmap color).height = bitmap.height ∧
    (bitmap_to_image bitmap color).data.length = 4 * bitmap.data.length ∧
    (bitmap_to_image bitmap color).data[4 * i]? =
      some (u8cast (color.red * 255)) ∧
    (bitmap_to_image bitmap color).data[4 * i + 1]? =
      some (u8cast (color.green * 255)) ∧
    (bitmap_to_image bitmap color).data[4 * i + 2]? =
      some (u8cast (color.blue * 255)) ∧
    (bitmap_to_image bitmap color).data[4 * i + 3]? = bitmap.data[i]? ∧
    bitmap_to_image bitmap { color with alpha := a' } =
      bitmap_to_image bitmap color := by
  obtain ⟨h0, h1, h2, h3⟩ := flatMap4_getElem bitmap.data
    (u8cast (color.red * 255)) (u8cast (color.green * 255))
    (u8cast (color.blue * 255)) i hi
  exact ⟨rfl, rfl, flatMap4_length _ _ _ _, h0, h1, h2, h3, rfl⟩

/-- C7 witness: the colorizer applied to a concrete 2×1 coverage bitmap and
an opaque-red color whose alpha is changed to 0. -/
theorem c7_bitmap_colorizer_witness :
    (bitmap_to_image ⟨0, 0, 2, 1, [7, 200]⟩ ⟨1, 0, 0, 1⟩).width = 2 ∧
    (bitmap_to_image ⟨0, 0, 2, 1, [7, 200]⟩ ⟨1, 0, 0, 1⟩).height = 1 ∧
    (bitmap_to_image ⟨0, 0, 2, 1, [7, 200]⟩ ⟨1, 0, 0, 1⟩).data.length = 4 * 2 ∧
    (bitmap_to_image ⟨0, 0, 2, 1, [7, 200]⟩ ⟨1, 0, 0, 1⟩).data[4 * 1]? =
      some (u8cast ((1 : ℚ) * 255)) ∧
    (bitmap_to_image ⟨0, 0, 2, 1, [7, 200]⟩ ⟨1, 0, 0, 1⟩).data[4 * 1 + 1]? =
      some (u8cast ((0 : ℚ) * 255)) ∧
    (bitmap_to_image ⟨0, 0, 2, 1, [7, 200]⟩ ⟨1, 0, 0, 1⟩).data[4 * 1 + 2]? =
      some (u8cast ((0 : ℚ) * 255)) ∧
    (bitmap_to_image ⟨0, 0, 2, 1, [7, 200]⟩ ⟨1, 0, 0, 1⟩).data[4 * 1 + 3]? =
      ([7, 200] : List Nat)[1]? ∧
    bitmap_to_image ⟨0, 0, 2, 1, [7, 200]⟩ ⟨1, 0, 0, 0⟩ =
      bitmap_to_image ⟨0, 0, 2, 1, [7, 200]⟩ ⟨1, 0, 0, 1⟩ :=
  c7_bitmap_colorizer ⟨0, 0, 2, 1, [7, 200]⟩ ⟨1, 0, 0, 1⟩ 0 1 (by decide)

theorem u8cast_natCast_div255 (n : ℕ) :
    u8cast ((n : ℚ) / 255) = min 255 (n / 255) := by
  unfold u8cast
  rw [show ((255 : ℚ)) = ((255 : ℕ) : ℚ) by norm_num,
    Rat.floor_natCast_div_natCast]
  omega

theorem u8cast_color (c e s d : ℕ) (hs : s ≤ 255) (hd : d ≤ 255) :
    u8cast (((c : ℚ) * (255 - (d : ℚ)) + (e : ℚ) * (255 - (s : ℚ))) / 255) =
      min 255 ((c * (255 - d) + e * (255 - s)) / 255) := by
  have hcast : ((c * (255 - d) + e * (255 - s) : ℕ) : ℚ) =
      (c : ℚ) * (255 - (d : ℚ)) + (e : ℚ) * (255 - (s : ℚ)) := by
    rw [Nat.cast_add, Nat.cast_mul, Nat.cast_mul, Nat.cast_sub hs,
      Nat.cast_sub hd]
    push_cast
    ring
  rw [← hcast, u8cast_natCast_div255]

theorem u8cast_alpha (s d : ℕ) (hs : s ≤ 255) (hd : d ≤ 255) :
    u8cast (255 - ((255 - (s : ℚ)) * (255 - (d : ℚ))) / 255) =
      (65025 - (255 - s) * (255 - d)) / 255 := by
  have hK : (255 - s) * (255 - d) ≤ 65025 := by
    have h1 : 255 - s ≤ 255 := by omega
    have h2 : 255 - d ≤ 255 := by omega
    calc (255 - s) * (255 - d) ≤ 255 * 255 := Nat.mul_le_mul h1 h2
      _ = 65025 := by norm_num
  have hcast : (255 : ℚ) - ((255 - (s : ℚ)) * (255 - (d : ℚ))) / 255 =
      ((65025 - (255 - s) * (255 - d) : ℕ) : ℚ) / 255 := by
    rw [Nat.cast_sub hK, Nat.cast_mul, Nat.cast_sub hs, Nat.cast_sub hd]
    push_cast
    ring
  rw [hcast, u8cast_natCast_div255]
  omega

/-- C3 (amended): per-pixel compositing is out_c = min(255, (src_c*(255-dst_a)
+ dst_c*(255-src_a))/255) — truncating division with saturation at 255 from
the `as u8` cast — and out_a = (65025 - (255-src_a)*(255-dst_a))/255, i.e.
the truncation is applied to `255 - product/255` as a whole (equivalently,
255 minus the *ceiling* of product/255), not to `product/255` before the
subtraction; glyphs are composited in glyph list order, each over the
buffer left by the previous ones. -/
theorem c3_composite_blend (sr sg sb sa dr dg db da : ℕ)
    (hsa : sa ≤ 255) (hda : da ≤ 255) :
    composePixelCode sr sg sb sa dr dg db da =
      (min 255 ((sr * (255 - da) + dr * (255 - sa)) / 255),
       min 255 ((sg * (255 - da) + dg * (255 - sa)) / 255),
       min 255 ((sb * (255 - da) + db * (255 - sa)) / 255),
       (65025 - (255 - sa) * (255 - da)) / 255) ∧
    (∀ (tw th : ℕ) (xm ym : ℚ) (g : GlyphImage) (gs : List GlyphImage)
        (data : List Nat),
      compositeAll tw th xm ym (g :: gs) data =
        compositeAll tw th xm ym gs (compositeGlyph tw th xm ym data g)) := by
  constructor
  · unfold composePixelCode
    rw [u8cast_alpha sa da hsa hda, u8cast_color sr dr sa da hsa hda,
      u8cast_color sg dg sa da hsa hda, u8cast_color sb db sa da hsa hda]
  · intro tw th xm ym g gs data
    rfl

/-- C3 witness: the amended per-pixel formula at a concrete pixel pair. -/
theorem c3_composite_blend_witness :
    composePixelCode 10 20 30 128 40 50 60 200 =
      (min 255 ((10 * (255 - 200) + 40 * (255 - 128)) / 255),
       min 255 ((20 * (255 - 200) + 50 * (255 - 128)) / 255),
       min 255 ((30 * (255 - 200) + 60 * (255 - 128)) / 255),
       (65025 - (255 - 128) * (255 - 200)) / 255) :=
  (c3_composite_blend 10 20 30 128 40 50 60 200 (by decide) (by decide)).1

/-- C3 counterexample to the claim as stated: at src = dst = (0,0,0,128) the
code's alpha is 191 while `255 - (255-128)*(255-128)/255` with truncating
division is 192; at src = dst = (255,255,255,0) the code's color bytes are
255 (the `as u8` cast saturates) while the claimed truncating quotient is
510. -/
theorem c3_counterexample :
    composePixelCode 0 0 0 128 0 0 0 128 ≠
      specComposePixel 0 0 0 128 0 0 0 128 ∧
    composePixelCode 255 255 255 0 255 255 255 0 ≠
      specComposePixel 255 255 255 0 255 255 255 0 := by
  have h1 : composePixelCode 0 0 0 128 0 0 0 128 =
      (min 255 ((0 * (255 - 128) + 0 * (255 - 128)) / 255),
       min 255 ((0 * (255 - 128) + 0 * (255 - 128)) / 255),
       min 255 ((0 * (255 - 128) + 0 * (255 - 128)) / 255),
       (65025 - (255 - 128) * (255 - 128)) / 255) := by
    unfold composePixelCode
    rw [u8cast_alpha 128 128 (by norm_num) (by norm_num),
      u8cast_color 0 0 128 128 (by norm_num) (by norm_num)]
  have h2 : composePixelCode 255 255 255 0 255 255 255 0 =
      (min 255 ((255 * (255 - 0) + 255 * (255 - 0)) / 255),
       min 255 ((255 * (255 - 0) + 255 * (255 - 0)) / 255),
       min 255 ((255 * (255 - 0) + 255 * (255 - 0)) / 255),
       (65025 - (255 - 0) * (255 - 0)) / 255) := by
    unfold composePixelCode
    rw [u8cast_alpha 0 0 (by norm_num) (by norm_num),
      u8cast_color 255 255 0 0 (by norm_num) (by norm_num)]
  rw [h1, h2]
  constructor <;> decide

/-- A plain red section without outline. -/
def exSec : OutlinedTextSection := ⟨⟨1, 0, 0, 1⟩, .none⟩

/-- A red section with a black outline of width 2. -/
def exSecOutlined : OutlinedTextSection := ⟨⟨1, 0, 0, 1⟩, .outline 2 ⟨0, 0, 0, 1⟩⟩

/-- A glyph with advance 5 whose fill and outline variants both rasterize to
a nonempty 1×1 bitmap. -/
def exGlyph : GlyphInput := ⟨5, ⟨0, 1, 1, 1, [255]⟩, ⟨0, 1, 1, 1, [200]⟩⟩

/-- An ordinary (non-newline) cluster holding `exGlyph`. -/
def exCluster : ClusterInput := ⟨false, 0, [exGlyph]⟩

/-- A newline-break cluster that nevertheless carries `exGlyph`. -/
def exNewlineCluster : ClusterInput := ⟨true, 0, [exGlyph]⟩

/-- Metrics with ascent 8, descent 2, leading 1 (line height 11). -/
def exMetrics : FontMetrics := ⟨8, 2, 1⟩

/-- C6 (amended): on a newline-break cluster the layout records the current
line's width as the running cursor `x`, pushes the finished line, resets
`x` to 0 and starts a fresh accumulator — and then the cluster's glyphs are
processed exactly like any other cluster's glyphs from that fresh state
(each is rendered into the *following* line whenever its rasterized bitmap
is nonempty, and its advance moves the new cursor). -/
theorem c6_newline_cluster (d : ℚ) (sections : List OutlinedTextSection)
    (st : LayoutState) (c : ClusterInput) (h : c.newline = true) :
    processCluster d sections st c =
      c.glyphs.foldl (processGlyph d (sections.getD c.data default))
        { lines := st.lines ++ [{ glyphs := st.current.glyphs, width := st.x }]
          current := {}
          x := 0 } ∧
    (processCluster d sections st c).lines =
      st.lines ++ [{ glyphs := st.current.glyphs, width := st.x }] := by
  have h1 : processCluster d sections st c =
      c.glyphs.foldl (processGlyph d (sections.getD c.data default))
        { lines := st.lines ++ [{ glyphs := st.current.glyphs, width := st.x }]
          current := {}
          x := 0 } := by
    unfold processCluster
    rw [if_pos h]
  exact ⟨h1, by rw [h1, foldl_processGlyph_lines]⟩

/-- C6 witness: the amended statement applied to a concrete newline cluster
with a nonempty-rasterizing glyph. -/
theorem c6_newline_cluster_witness :
    processCluster 2 [exSec] ⟨[], {}, 0⟩ exNewlineCluster =
      exNewlineCluster.glyphs.foldl (processGlyph 2 ([exSec].getD
        exNewlineCluster.data default))
        { lines := [] ++
            [{ glyphs := ({} : OutlinedGlyphLine).glyphs, width := 0 }]
          current := {}
          x := 0 } ∧
    (processCluster 2 [exSec] ⟨[], {}, 0⟩ exNewlineCluster).lines =
      [] ++ [{ glyphs := ({} : OutlinedGlyphLine).glyphs, width := 0 }] :=
  c6_newline_cluster 2 [exSec] ⟨[], {}, 0⟩ exNewlineCluster rfl

/-- C6 counterexample to the claim as stated: a shaped input consisting of a
single newline-break cluster whose glyph rasterizes nonempty.  The claim
says no glyph image is emitted for any glyph of that cluster, so the layout
output would be empty; the code renders the glyph into the following line
and the output has one glyph image. -/
theorem c6_counterexample :
    (create_glyph_images exMetrics .left (0, 0) [exSec]
      [exNewlineCluster]).length = 1 := by
  decide

/-- C2: every glyph on line `i` (0 = topmost) receives final offsets equal to
its line-local offsets plus `anchor_offset_x + padding` horizontally and
`anchor_offset_y + (line_count - 1 - i) * line_height` vertically, where
`anchor_offset_x = -ax*text_width - text_width/2`,
`anchor_offset_y = -ay*text_height - text_height/2`, and the padding is 0
for Left, `(text_width - line.width)/2` for Center and
`text_width - line.width` for Right. -/
theorem c2_final_offsets (m : FontMetrics) (justify : JustifyOutlinedText)
    (anchor : ℚ × ℚ) (sections : List OutlinedTextSection)
    (clusters : List ClusterInput) (i : ℕ) (line : OutlinedGlyphLine)
    (g : GlyphImage) (hs : sections ≠ [])
    (hline : (layoutLines m.descent sections clusters)[i]? = some line)
    (hg : g ∈ line.glyphs) :
    { g with
      offset_x := g.offset_x +
        ((-anchor.1 * textWidth (layoutLines m.descent sections clusters) -
            textWidth (layoutLines m.descent sections clusters) / 2) +
          justifyPadding justify
            (textWidth (layoutLines m.descent sections clusters)) line.width)
      offset_y := g.offset_y +
        ((-anchor.2 * textHeight m (layoutLines m.descent sections clusters) -
            textHeight m (layoutLines m.descent sections clusters) / 2) +
          (((layoutLines m.descent sections clusters).length - 1 - i : ℕ) : ℚ) *
            lineHeight m) } ∈
      create_glyph_images m justify anchor sections clusters := by
  unfold create_glyph_images
  rw [if_neg hs]
  rw [List.mem_flatten]
  refine ⟨_, List.mem_map_of_mem _
    (List.mk_mem_enum_iff_getElem?.mpr hline), ?_⟩
  refine List.mem_map.mpr ⟨g, hg, ?_⟩
  have hsub : (layoutLines m.descent sections clusters).length - i - 1 =
      (layoutLines m.descent sections clusters).length - 1 - i :=
    (Nat.sub_right_comm _ 1 i).symm
  rw [hsub]

/-- C2 witness: the final offset formula at a concrete one-line layout. -/
theorem c2_final_offsets_witness :
    ({ (⟨0, 2, 0, ⟨1, 1, [255, 0, 0, 255]⟩⟩ : GlyphImage) with
      offset_x := (0 : ℚ) +
        ((-(0 : ℚ) * textWidth (layoutLines exMetrics.descent [exSec]
            [exCluster]) -
          textWidth (layoutLines exMetrics.descent [exSec] [exCluster]) / 2) +
          justifyPadding .left
            (textWidth (layoutLines exMetrics.descent [exSec] [exCluster]))
            5)
      offset_y := (2 : ℚ) +
        ((-(0 : ℚ) *
            textHeight exMetrics (layoutLines exMetrics.descent [exSec]
              [exCluster]) -
          textHeight exMetrics (layoutLines exMetrics.descent [exSec]
            [exCluster]) / 2) +
          (((layoutLines exMetrics.descent [exSec] [exCluster]).length - 1 -
            0 : ℕ) : ℚ) * lineHeight exMetrics) } : GlyphImage) ∈
      create_glyph_images exMetrics .left (0, 0) [exSec] [exCluster] :=
  c2_final_offsets exMetrics .left (0, 0) [exSec] [exCluster] 0
    ⟨[⟨0, 2, 0, ⟨1, 1, [255, 0, 0, 255]⟩⟩], 5⟩
    ⟨0, 2, 0, ⟨1, 1, [255, 0, 0, 255]⟩⟩
    (by decide)
    (by norm_num [layoutLines, processCluster, processGlyph, bitmap_to_image,
      exSec, exGlyph, exCluster, exMetrics, u8cast] <;> decide)
    (by norm_num)

/-- The two-valued layer discriminator: every glyph image carries either the
fill layer's `0.0` or the outline layer's `-0.001`. -/
def zOk (g : GlyphImage) : Prop := g.offset_z = 0 ∨ g.offset_z = -1/1000

/-- Invariant of the layout state: every accumulated glyph image, finished
or current, carries a two-valued layer `z`. -/
def StateZ (st : LayoutState) : Prop :=
  (∀ l ∈ st.lines, ∀ g ∈ l.glyphs, zOk g) ∧ ∀ g ∈ st.current.glyphs, zOk g

theorem StateZ_push (st : LayoutState) (gi : GlyphImage)
    (h : StateZ st) (hz : zOk gi) :
    StateZ { st with current := { st.current with
      glyphs := st.current.glyphs ++ [gi] } } := by
  refine ⟨h.1, ?_⟩
  intro x hx
  rcases List.mem_append.mp hx with hx | hx
  · exact h.2 x hx
  · rw [List.mem_singleton] at hx
    subst hx
    exact hz

theorem StateZ_setX (st : LayoutState) (q : ℚ) (h : StateZ st) :
    StateZ { st with x := q } := h

theorem processGlyph_StateZ (d : ℚ) (sec : OutlinedTextSection)
    (st : LayoutState) (g : GlyphInput) (h : StateZ st) :
    StateZ (processGlyph d sec st g) := by
  unfold processGlyph
  cases sec.outline with
  | none =>
      dsimp only
      apply StateZ_setX
      split
      · apply StateZ_push _ _ h
        left
        rfl
      · exact h
  | outline w ocolor =>
      dsimp only
      apply StateZ_setX
      split
      · apply StateZ_push
        · split
          · apply StateZ_push _ _ h
            right
            rfl
          · exact h
        · left
          rfl
      · split
        · apply StateZ_push _ _ h
          right
          rfl
        · exact h

theorem foldl_processGlyph_StateZ (d : ℚ) (sec : OutlinedTextSection)
    (gs : List GlyphInput) (st : LayoutState) (h : StateZ st) :
    StateZ (gs.foldl (processGlyph d sec) st) := by
  induction gs generalizing st with
  | nil => exact h
  | cons g gs ih => exact ih _ (processGlyph_StateZ d sec st g h)

theorem processCluster_StateZ (d : ℚ) (sections : List OutlinedTextSection)
    (st : LayoutState) (c : ClusterInput) (h : StateZ st) :
    StateZ (processCluster d sections st c) := by
  unfold processCluster
  apply foldl_processGlyph_StateZ
  split
  · refine ⟨?_, ?_⟩
    · intro l hl
      rcases List.mem_append.mp hl with hl | hl
      · exact h.1 l hl
      · rw [List.mem_singleton] at hl
        subst hl
        exact h.2
    · intro x hx
      simp at hx
  · exact h

theorem foldl_processCluster_StateZ (d : ℚ)
    (sections : List OutlinedTextSection) (cs : List ClusterInput)
    (st : LayoutState) (h : StateZ st) :
    StateZ (cs.foldl (processCluster d sections) st) := by
  induction cs generalizing st with
  | nil => exact h
  | cons c cs ih => exact ih _ (processCluster_StateZ d sections st c h)

theorem layoutLines_zOk (d : ℚ) (sections : List OutlinedTextSection)
    (clusters : List ClusterInput) :
    ∀ l ∈ layoutLines d sections clusters, ∀ g ∈ l.glyphs, zOk g := by
  intro l hl g hg
  have hst := foldl_processCluster_StateZ d sections clusters ⟨[], {}, 0⟩
    ⟨by intro x hx; simp at hx, by intro x hx; simp at hx⟩
  unfold layoutLines at hl
  rcases List.mem_append.mp hl with hl' | hl'
  · exact hst.1 l hl' g hg
  · rw [List.mem_singleton] at hl'
    subst hl'
    exact hst.2 g hg

theorem create_glyph_images_zOk (m : FontMetrics)
    (justify : JustifyOutlinedText) (anchor : ℚ × ℚ)
    (sections : List OutlinedTextSection) (clusters : List ClusterInput)
    (g : GlyphImage)
    (hg : g ∈ create_glyph_images m justify anchor sections clusters) :
    zOk g := by
  unfold create_glyph_images at hg
  by_cases hs : sections = []
  · rw [if_pos hs] at hg
    simp at hg
  · rw [if_neg hs] at hg
    rw [List.mem_flatten] at hg
    obtain ⟨blk, hblk, hgblk⟩ := hg
    rw [List.mem_map] at hblk
    obtain ⟨p, hp, rfl⟩ := hblk
    rw [List.mem_map] at hgblk
    obtain ⟨g', hg', rfl⟩ := hgblk
    have hline : p.2 ∈ layoutLines m.descent sections clusters := by
      rcases p with ⟨i, line⟩
      exact List.getElem?_mem (List.mk_mem_enum_iff_getElem?.mp hp)
    exact layoutLines_zOk m.descent sections clusters p.2 hline g' hg'

/-- C9: every glyph image emitted by the layout has `offset_z` equal to 0
(fill) or -0.001 (outline), so partitioning the flattened list by
`offset_z == 0.0` puts a glyph in the first group iff it is a fill glyph,
in the second group iff it is an outline glyph, and drops nothing (the two
group sizes add up to the whole list). -/
theorem c9_layer_partition (m : FontMetrics) (justify : JustifyOutlinedText)
    (anchor : ℚ × ℚ) (sections : List OutlinedTextSection)
    (clusters : List ClusterInput) (g : GlyphImage)
    (hg : g ∈ create_glyph_images m justify anchor sections clusters) :
    (g.offset_z = 0 ∨ g.offset_z = -1/1000) ∧
    (g ∈ ((create_glyph_images m justify anchor sections clusters).partition
        (fun g => decide (g.offset_z = 0))).1 ↔ g.offset_z = 0) ∧
    (g ∈ ((create_glyph_images m justify anchor sections clusters).partition
        (fun g => decide (g.offset_z = 0))).2 ↔ g.offset_z = -1/1000) ∧
    ((create_glyph_images m justify anchor sections clusters).partition
        (fun g => decide (g.offset_z = 0))).1.length +
      ((create_glyph_images m justify anchor sections clusters).partition
        (fun g => decide (g.offset_z = 0))).2.length =
      (create_glyph_images m justify anchor sections clusters).length := by
  have hz := create_glyph_images_zOk m justify anchor sections clusters g hg
  rw [List.partition_eq_filter_filter]
  refine ⟨hz, ?_, ?_, ?_⟩
  · rw [List.mem_filter]
    constructor
    · rintro ⟨-, hpg⟩
      exact of_decide_eq_true hpg
    · intro h0
      exact ⟨hg, decide_eq_true h0⟩
  · rw [List.mem_filter]
    constructor
    · rintro ⟨-, hpg⟩
      simp only [Function.comp_apply, Bool.not_eq_true'] at hpg
      rcases hz with h0 | h1
      · exact absurd h0 (of_decide_eq_false hpg)
      · exact h1
    · intro h1
      have hne : ¬ g.offset_z = 0 := by
        rw [h1]
        norm_num
      refine ⟨hg, ?_⟩
      simp only [Function.comp_apply, Bool.not_eq_true']
      exact decide_eq_false hne
  · exact (@List.length_eq_length_filter_add _
      (create_glyph_images m justify anchor sections clusters)
      (fun g => decide (g.offset_z = 0))).symm

/-- The outline glyph image produced for `exGlyph` inside `exSecOutlined`
under a centered anchor, Left justification and `exMetrics`. -/
def exOutGlyphImage : GlyphImage := ⟨-5/2, -3, -1/1000, ⟨1, 1, [0, 0, 0, 200]⟩⟩

/-- The fill glyph image produced for `exGlyph` in the same layout. -/
def exFillGlyphImage : GlyphImage := ⟨-5/2, -3, 0, ⟨1, 1, [255, 0, 0, 255]⟩⟩

/-- Concrete evaluation of the layout on the outlined one-glyph input: the
outline glyph image comes first, the fill glyph image second. -/
theorem exLayout_eq :
    create_glyph_images exMetrics .left (0, 0) [exSecOutlined] [exCluster] =
      [exOutGlyphImage, exFillGlyphImage] := by
  norm_num [create_glyph_images, layoutLines, processCluster, processGlyph,
    bitmap_to_image, exSecOutlined, exGlyph, exCluster, exMetrics, u8cast,
    textWidth, textHeight, lineHeight, justifyPadding, exOutGlyphImage,
    exFillGlyphImage] <;> decide

/-- C9 witness: the partition facts for the outline glyph of the concrete
outlined layout. -/
theorem c9_layer_partition_witness :
    (exOutGlyphImage.offset_z = 0 ∨ exOutGlyphImage.offset_z = -1/1000) ∧
    (exOutGlyphImage ∈ ((create_glyph_images exMetrics .left (0, 0)
        [exSecOutlined] [exCluster]).partition
        (fun g => decide (g.offset_z = 0))).1 ↔
      exOutGlyphImage.offset_z = 0) ∧
    (exOutGlyphImage ∈ ((create_glyph_images exMetrics .left (0, 0)
        [exSecOutlined] [exCluster]).partition
        (fun g => decide (g.offset_z = 0))).2 ↔
      exOutGlyphImage.offset_z = -1/1000) ∧
    ((create_glyph_images exMetrics .left (0, 0) [exSecOutlined]
        [exCluster]).partition (fun g => decide (g.offset_z = 0))).1.length +
      ((create_glyph_images exMetrics .left (0, 0) [exSecOutlined]
        [exCluster]).partition (fun g => decide (g.offset_z = 0))).2.length =
      (create_glyph_images exMetrics .left (0, 0) [exSecOutlined]
        [exCluster]).length :=
  c9_layer_partition exMetrics .left (0, 0) [exSecOutlined] [exCluster]
    exOutGlyphImage (by rw [exLayout_eq]; exact List.mem_cons_self _ _)

theorem compose_glyph_images_cons (g0 : GlyphImage) (gs : List GlyphImage) :
    ∃ img, compose_glyph_images (g0 :: gs) = some img ∧
      img.z = g0.offset_z :=
  ⟨_, rfl, rfl⟩

theorem composeLayers_eq (l : List GlyphImage) :
    composeLayers l =
      (compose_glyph_images (l.filter
        (fun g => decide (g.offset_z = 0)))).toList ++
      (compose_glyph_images (l.filter
        (not ∘ fun g => decide (g.offset_z = 0)))).toList := by
  unfold composeLayers
  rw [List.partition_eq_filter_filter]

/-- C5 (amended): whenever both the fill group and the outline group of the
partition are nonempty, exactly two composed atlas images are stored, the
*fill-layer* image first (z = 0.0) and the *outline-layer* image second
(z = -0.001) — the reverse of the order the claim states. -/
theorem c5_fill_before_outline (m : FontMetrics)
    (justify : JustifyOutlinedText) (anchor : ℚ × ℚ)
    (sections : List OutlinedTextSection) (clusters : List ClusterInput)
    (h1 : ((create_glyph_images m justify anchor sections clusters).partition
        (fun g => decide (g.offset_z = 0))).1 ≠ [])
    (h2 : ((create_glyph_images m justify anchor sections clusters).partition
        (fun g => decide (g.offset_z = 0))).2 ≠ []) :
    (composeLayers (create_glyph_images m justify anchor sections
      clusters)).map OutlinedTextImage.z = [0, -1/1000] := by
  rw [List.partition_eq_filter_filter] at h1 h2
  dsimp only at h1 h2
  obtain ⟨a, as, ha⟩ := List.exists_cons_of_ne_nil h1
  obtain ⟨b, bs, hb⟩ := List.exists_cons_of_ne_nil h2
  have haz : a.offset_z = 0 := by
    have hmem : a ∈ (create_glyph_images m justify anchor sections
        clusters).filter (fun g => decide (g.offset_z = 0)) := by
      rw [ha]
      exact List.mem_cons_self _ _
    exact of_decide_eq_true (List.mem_filter.mp hmem).2
  have hbz : b.offset_z = -1/1000 := by
    have hmem : b ∈ (create_glyph_images m justify anchor sections
        clusters).filter (not ∘ fun g => decide (g.offset_z = 0)) := by
      rw [hb]
      exact List.mem_cons_self _ _
    have hbL := (List.mem_filter.mp hmem).1
    have hbp := (List.mem_filter.mp hmem).2
    simp only [Function.comp_apply, Bool.not_eq_true'] at hbp
    rcases create_glyph_images_zOk m justify anchor sections clusters b hbL
      with h0 | h1'
    · exact absurd h0 (of_decide_eq_false hbp)
    · exact h1'
  rw [composeLayers_eq, ha, hb]
  obtain ⟨i1, e1, z1⟩ := compose_glyph_images_cons a as
  obtain ⟨i2, e2, z2⟩ := compose_glyph_images_cons b bs
  rw [e1, e2]
  simp [z1, z2, haz, hbz]

/-- Concrete evaluation of the partition for the outlined one-glyph layout:
the fill group holds the fill glyph image, the rest group the outline one. -/
theorem exPartition_eq :
    (create_glyph_images exMetrics .left (0, 0) [exSecOutlined]
      [exCluster]).partition (fun g => decide (g.offset_z = 0)) =
      ([exFillGlyphImage], [exOutGlyphImage]) := by
  rw [List.partition_eq_filter_filter, exLayout_eq]
  norm_num [List.filter_cons, decide_eq_true_eq, Function.comp,
    exFillGlyphImage, exOutGlyphImage]

/-- C5 witness: the amended order statement at the concrete outlined
layout. -/
theorem c5_fill_before_outline_witness :
    (composeLayers (create_glyph_images exMetrics .left (0, 0)
      [exSecOutlined] [exCluster])).map OutlinedTextImage.z = [0, -1/1000] :=
  c5_fill_before_outline exMetrics .left (0, 0) [exSecOutlined] [exCluster]
    (by rw [exPartition_eq]; simp) (by rw [exPartition_eq]; simp)

/-- C5 counterexample to the claim as stated: on the concrete outlined
layout the stored image list is [fill (z = 0), outline (z = -0.001)], not
[outline (z = -0.001), fill (z = 0)]. -/
theorem c5_counterexample :
    (composeLayers (create_glyph_images exMetrics .left (0, 0)
      [exSecOutlined] [exCluster])).map OutlinedTextImage.z ≠
      [-1/1000, 0] := by
  rw [composeLayers_eq, exLayout_eq]
  have hf : ([exOutGlyphImage, exFillGlyphImage] : List GlyphImage).filter
      (fun g => decide (g.offset_z = 0)) = [exFillGlyphImage] := by
    norm_num [List.filter_cons, decide_eq_true_eq, exFillGlyphImage,
      exOutGlyphImage]
  have hg : ([exOutGlyphImage, exFillGlyphImage] : List GlyphImage).filter
      (not ∘ fun g => decide (g.offset_z = 0)) = [exOutGlyphImage] := by
    norm_num [List.filter_cons, decide_eq_true_eq, Function.comp,
      exFillGlyphImage, exOutGlyphImage]
  rw [hf, hg]
  obtain ⟨i1, e1, z1⟩ := compose_glyph_images_cons exFillGlyphImage []
  obtain ⟨i2, e2, z2⟩ := compose_glyph_images_cons exOutGlyphImage []
  rw [e1, e2]
  simp only [Option.toList_some, List.singleton_append, List.map_cons,
    List.map_nil, z1, z2]
  intro hcontra
  have h01 := List.head_eq_of_cons_eq hcontra
  rw [exFillGlyphImage] at h01
  norm_num at h01

theorem foldl_boundsStep_mono (gs : List GlyphImage) (b : ℚ × ℚ × ℚ × ℚ) :
    (gs.foldl boundsStep b).1 ≤ b.1 ∧
    b.2.1 ≤ (gs.foldl boundsStep b).2.1 ∧
    (gs.foldl boundsStep b).2.2.1 ≤ b.2.2.1 ∧
    b.2.2.2 ≤ (gs.foldl boundsStep b).2.2.2 := by
  induction gs generalizing b with
  | nil => exact ⟨le_refl _, le_refl _, le_refl _, le_refl _⟩
  | cons g gs ih =>
      have h := ih (boundsStep b g)
      rw [List.foldl_cons]
      exact ⟨h.1.trans (min_le_left _ _),
        le_trans (le_max_left _ _) h.2.1,
        h.2.2.1.trans (min_le_left _ _),
        le_trans (le_max_left _ _) h.2.2.2⟩

theorem foldl_boundsStep_mem (gs : List GlyphImage) (b : ℚ × ℚ × ℚ × ℚ)
    (g : GlyphImage) (hg : g ∈ gs) :
    (gs.foldl boundsStep b).1 ≤ g.offset_x ∧
    g.offset_x + (g.image.width : ℚ) ≤ (gs.foldl boundsStep b).2.1 ∧
    (gs.foldl boundsStep b).2.2.1 ≤ g.offset_y ∧
    g.offset_y + (g.image.height : ℚ) ≤ (gs.foldl boundsStep b).2.2.2 := by
  induction gs generalizing b with
  | nil => cases hg
  | cons g0 gs ih =>
      rw [List.foldl_cons]
      rcases List.mem_cons.mp hg with rfl | hg'
      · have h := foldl_boundsStep_mono gs (boundsStep b g)
        exact ⟨h.1.trans (min_le_right _ _),
          le_trans (le_max_right _ _) h.2.1,
          h.2.2.1.trans (min_le_right _ _),
          le_trans (le_max_right _ _) h.2.2.2⟩
      · exact ih _ hg'

/-- Every glyph of a list lies inside the list's bounding box. -/
theorem glyphBounds_spec (gs : List GlyphImage) (g : GlyphImage)
    (hg : g ∈ gs) :
    (glyphBounds gs).1 ≤ g.offset_x ∧
    g.offset_x + (g.image.width : ℚ) ≤ (glyphBounds gs).2.1 ∧
    (glyphBounds gs).2.2.1 ≤ g.offset_y ∧
    g.offset_y + (g.image.height : ℚ) ≤ (glyphBounds gs).2.2.2 := by
  match gs, hg with
  | g0 :: rest, hg =>
      unfold glyphBounds
      rcases List.mem_cons.mp hg with rfl | hg'
      · have h := foldl_boundsStep_mono rest
          (g.offset_x, g.offset_x + (g.image.width : ℚ),
           g.offset_y, g.offset_y + (g.image.height : ℚ))
        exact h
      · exact foldl_boundsStep_mem rest _ g hg'

theorem nat_le_of_cast_le_add_half (a b : ℕ)
    (h : (a : ℚ) ≤ (b : ℚ) + 1/2) : a ≤ b := by
  by_contra hab
  push_neg at hab
  have h1 : ((b : ℚ) + 1) ≤ (a : ℚ) := by exact_mod_cast hab
  linarith

theorem toNat_cast_rat (n : ℤ) (h : 0 ≤ n) : ((n.toNat : ℕ) : ℚ) = (n : ℚ) := by
  rw [← Int.cast_natCast, Int.toNat_of_nonneg h]

theorem ceil_toNat_ge (q : ℚ) (hq : 0 ≤ q) : q ≤ ((⌈q⌉.toNat : ℕ) : ℚ) := by
  have hceil : (0 : ℤ) ≤ ⌈q⌉ := Int.ceil_nonneg hq
  rw [toNat_cast_rat _ hceil]
  exact Int.le_ceil q

theorem roundQ_toNat_le (q : ℚ) (hq : 0 ≤ q) :
    (((roundQ q).toNat : ℕ) : ℚ) ≤ q + 1/2 := by
  have h0 : (0 : ℤ) ≤ roundQ q := by
    unfold roundQ
    exact Int.floor_nonneg.mpr (by linarith)
  rw [toNat_cast_rat _ h0]
  exact Int.floor_le _

/-- C10: with a nonempty glyph list of nonzero dimensions, every atlas write
of `compose_glyph_images` stays inside the allocated buffer: horizontally
`dest_x + source_x < total_width`; the two unsigned subtractions computing
`dest_y = total_height - height - round(offset_y - y_min)` never underflow
(`height + round(offset_y - y_min) ≤ total_height`); vertically
`dest_y + source_y < total_height`; and the flat byte index of each written
pixel is below the buffer length `total_width * total_height * 4`. -/
theorem c10_compose_in_bounds (glyph_images : List GlyphImage)
    (g : GlyphImage) (source_x source_y : ℕ)
    (hdims : ∀ g' ∈ glyph_images, 0 < g'.image.width ∧ 0 < g'.image.height)
    (hg : g ∈ glyph_images)
    (hsx : source_x < g.image.width) (hsy : source_y < g.image.height) :
    destX (glyphBounds glyph_images).1 g + source_x <
      totalWidth glyph_images ∧
    g.image.height +
        (roundQ (g.offset_y - (glyphBounds glyph_images).2.2.1)).toNat ≤
      totalHeight glyph_images ∧
    destY (totalHeight glyph_images) (glyphBounds glyph_images).2.2.1 g +
        source_y < totalHeight glyph_images ∧
    ((destY (totalHeight glyph_images) (glyphBounds glyph_images).2.2.1 g +
          source_y) * totalWidth glyph_images +
        destX (glyphBounds glyph_images).1 g + source_x) * 4 + 3 <
      totalWidth glyph_images * totalHeight glyph_images * 4 := by
  obtain ⟨hxmin, hxmax, hymin, hymax⟩ := glyphBounds_spec glyph_images g hg
  obtain ⟨hw, hh⟩ := hdims g hg
  have hwQ : (0 : ℚ) < (g.image.width : ℚ) := by exact_mod_cast hw
  have hhQ : (0 : ℚ) < (g.image.height : ℚ) := by exact_mod_cast hh
  -- horizontal part
  have hWext : (0 : ℚ) ≤ (glyphBounds glyph_images).2.1 -
      (glyphBounds glyph_images).1 := by linarith
  have hW := ceil_toNat_ge _ hWext
  have hvx : (0 : ℚ) ≤ g.offset_x - (glyphBounds glyph_images).1 := by
    linarith
  have hdx := roundQ_toNat_le _ hvx
  have hxNat : destX (glyphBounds glyph_images).1 g + g.image.width ≤
      totalWidth glyph_images := by
    apply nat_le_of_cast_le_add_half
    unfold destX
    unfold totalWidth at hW ⊢
    push_cast
    push_cast at hdx hW
    linarith
  have hxfinal : destX (glyphBounds glyph_images).1 g + source_x <
      totalWidth glyph_images := by omega
  -- vertical part
  have hHext : (0 : ℚ) ≤ (glyphBounds glyph_images).2.2.2 -
      (glyphBounds glyph_images).2.2.1 := by linarith
  have hH := ceil_toNat_ge _ hHext
  have hvy : (0 : ℚ) ≤ g.offset_y - (glyphBounds glyph_images).2.2.1 := by
    linarith
  have hdy := roundQ_toNat_le _ hvy
  have hyNat : g.image.height +
      (roundQ (g.offset_y - (glyphBounds glyph_images).2.2.1)).toNat ≤
      totalHeight glyph_images := by
    apply nat_le_of_cast_le_add_half
    unfold totalHeight at hH ⊢
    push_cast
    push_cast at hdy hH
    linarith
  have hdestY : destY (totalHeight glyph_images)
      (glyphBounds glyph_images).2.2.1 g =
      totalHeight glyph_images - g.image.height -
        (roundQ (g.offset_y - (glyphBounds glyph_images).2.2.1)).toNat := rfl
  have hyfinal : destY (totalHeight glyph_images)
      (glyphBounds glyph_images).2.2.1 g + source_y <
      totalHeight glyph_images := by
    rw [hdestY]
    omega
  refine ⟨hxfinal, hyNat, hyfinal, ?_⟩
  -- flat index bound
  have hidx : (destY (totalHeight glyph_images)
        (glyphBounds glyph_images).2.2.1 g + source_y) *
        totalWidth glyph_images +
      destX (glyphBounds glyph_images).1 g + source_x <
      totalWidth glyph_images * totalHeight glyph_images := by
    calc (destY (totalHeight glyph_images)
            (glyphBounds glyph_images).2.2.1 g + source_y) *
            totalWidth glyph_images +
          destX (glyphBounds glyph_images).1 g + source_x
        < (destY (totalHeight glyph_images)
            (glyphBounds glyph_images).2.2.1 g + source_y) *
            totalWidth glyph_images + totalWidth glyph_images := by
          omega
      _ = (destY (totalHeight glyph_images)
            (glyphBounds glyph_images).2.2.1 g + source_y + 1) *
            totalWidth glyph_images := by
          ring
      _ ≤ totalHeight glyph_images * totalWidth glyph_images :=
          Nat.mul_le_mul_right _ hyfinal
      _ = totalWidth glyph_images * totalHeight glyph_images :=
          Nat.mul_comm _ _
  omega

/-- C10 witness: the in-bounds facts for the outline glyph of the concrete
two-glyph list, at source pixel (0, 0). -/
theorem c10_compose_in_bounds_witness :
    destX (glyphBounds [exOutGlyphImage, exFillGlyphImage]).1
        exOutGlyphImage + 0 <
      totalWidth [exOutGlyphImage, exFillGlyphImage] ∧
    exOutGlyphImage.image.height +
        (roundQ (exOutGlyphImage.offset_y -
          (glyphBounds [exOutGlyphImage, exFillGlyphImage]).2.2.1)).toNat ≤
      totalHeight [exOutGlyphImage, exFillGlyphImage] ∧
    destY (totalHeight [exOutGlyphImage, exFillGlyphImage])
        (glyphBounds [exOutGlyphImage, exFillGlyphImage]).2.2.1
        exOutGlyphImage + 0 <
      totalHeight [exOutGlyphImage, exFillGlyphImage] ∧
    ((destY (totalHeight [exOutGlyphImage, exFillGlyphImage])
          (glyphBounds [exOutGlyphImage, exFillGlyphImage]).2.2.1
          exOutGlyphImage + 0) *
        totalWidth [exOutGlyphImage, exFillGlyphImage] +
        destX (glyphBounds [exOutGlyphImage, exFillGlyphImage]).1
          exOutGlyphImage + 0) * 4 + 3 <
      totalWidth [exOutGlyphImage, exFillGlyphImage] *
        totalHeight [exOutGlyphImage, exFillGlyphImage] * 4 :=
  c10_compose_in_bounds [exOutGlyphImage, exFillGlyphImage] exOutGlyphImage
    0 0 (by decide) (List.mem_cons_self _ _) (by decide) (by decide)

end BevySwash
